import Mathlib

/-!
# Verification of the gitlab-runner-auth reconciliation logic

Shallow embedding of the repository's Python sources
(`gitlab_runner_config.py`, `capture_tags.py`, `generate_config.py`)
as executable Lean definitions, together with theorems settling the
specification claims about them.

External collaborators (the `socket`, `shutil.which`, `os.environ`,
`archspec` and `jsonschema` libraries, and the remote GitLab HTTP
endpoints) are modelled as explicit oracle parameters; the repository's
own control flow and data handling are translated directly.
-/

namespace GitlabRunnerAuth

/-! ## Shared string helpers -/

/-- `re.sub(r"\d", "", s)`: remove every decimal digit from `s`. -/
def stripDigits (s : String) : String :=
  String.mk (s.data.filter (fun c => !c.isDigit))

/-- Insertion into a Python `set`, modelled as an insertion-ordered
deduplicated list: a member already present is not added again. -/
def pyInsert (l : List String) (x : String) : List String :=
  if x ∈ l then l else l ++ [x]

/-- `set([...])` built from a list, as an insertion-ordered deduplicated list. -/
def pySet (xs : List String) : List String :=
  xs.foldl pyInsert []

/-- `",".join(l)` from Python. -/
def commaJoin : List String → String
  | [] => ""
  | [a] => a
  | a :: b :: t => a ++ "," ++ commaJoin (b :: t)

/-! ## `identifying_tags` (gitlab_runner_config.py lines 42-47) -/

/-- `identifying_tags(instance)`: the host identity tag set
(`{HOSTNAME, re.sub(r"\d", "", HOSTNAME), "managed"}`); raises
`ValueError` (modelled as `.error`) when the instance name is already one
of those identifiers, otherwise adds the instance name and returns the
list.  The hostname (`socket.gethostname()`) is an explicit parameter. -/
def identifying_tags (hostname inst : String) : Except String (List String) :=
  let identifiers := pySet [hostname, stripDigits hostname, "managed"]
  if inst ∈ identifiers then
    .error "instance name cannot be an identifying tag"
  else
    .ok (identifiers ++ [inst])

/-! ## `flatten_values` (gitlab_runner_config.py lines 50-64) -/

/-- A Python value as handled by `flatten_values`: a scalar (all scalars
appearing in tag properties are strings), a list, or an insertion-ordered
dict. -/
inductive PyVal where
  | str (s : String)
  | list (items : List PyVal)
  | dict (entries : List (String × PyVal))

mutual

/-- `flatten_values(d)`: recursively collect dictionary/list values into a
list, in order. -/
def flatten_values : PyVal → List String
  | .str s => [s]
  | .list items => flattenList items
  | .dict entries => flattenEntries entries

/-- `flatten_values` mapped over the items of a list, concatenated. -/
def flattenList : List PyVal → List String
  | [] => []
  | v :: rest => flatten_values v ++ flattenList rest

/-- `flatten_values` mapped over the values of a dict, concatenated. -/
def flattenEntries : List (String × PyVal) → List String
  | [] => []
  | (_, v) :: rest => flatten_values v ++ flattenEntries rest

end

/-! ## `capture_tags` (capture_tags.py) -/

/-- The tag schema as read by `capture_tags`:
`tag_schema["properties"]["os"]["enum"]`,
`tag_schema["properties"]["architecture"]["enum"]` and
`tag_schema["custom-name"]`. -/
structure TagSchema where
  osEnum : List String
  archEnum : List String
  customName : String

/-- The result of `archspec.cpu.host()`: the microarchitecture name and the
names of its ancestors, in iteration order. -/
structure ArchInfo where
  name : String
  ancestors : List String

/-- Oracles for the external libraries consulted by `capture_tags`:
`archspec.cpu.host()`, `shutil.which` (whether an executable is found in
the search path), and the result of the Python expression
`e in arch_info.ancestors` for a string `e` (a comparison between a string
and `Microarchitecture` objects, delegated to the library). -/
structure TagCapEnv where
  arch : ArchInfo
  whichAvail : String → Bool
  ancestorMemStr : String → Bool

/-- The `properties` dict built by `capture_tags`, field per key.
`scheduler` and `os` are `Option` because those keys are only inserted on
some paths. -/
structure CaptureProps where
  architecture : String
  micro_architecture : List String
  custom : List String
  scheduler : Option String
  os : Option String
deriving DecidableEq, Repr

/-- One iteration of the `for e in env` loop of `capture_tags` (the
schema-driven classification of one environment tag name).  Note the
unrecognized-tag branch executes the Python statement
`properties["custom"] += tag_schema['custom-name']+"_"+e`, which extends
the list with the *characters* of the string. -/
def applyEnvTag (sch : TagSchema) (ancestorMemStr : String → Bool)
    (p : CaptureProps) (e : String) : CaptureProps :=
  if e ∈ sch.osEnum then { p with os := some e }
  else if ancestorMemStr e then p
  else if e ∈ sch.archEnum then { p with architecture := e }
  else { p with custom := p.custom ++ (sch.customName ++ "_" ++ e).data.map Char.toString }

/-- `capture_tags(instance, executor_type, env, tag_schema)` from
`capture_tags.py`: architecture data from archspec, a scheduler tag probed
via `which` when the executor is `"batch"` (`bsub`→`lsf`, else
`salloc`→`slurm`, else `cqsub`→`cobalt`), and schema-driven processing of
the environment tag names. -/
def capture_tags (cap : TagCapEnv) (inst executor_type : String)
    (env : Option (List String)) (tag_schema : Option TagSchema) : CaptureProps :=
  let p0 : CaptureProps :=
    { architecture := cap.arch.name
      micro_architecture := cap.arch.ancestors
      custom := []
      scheduler :=
        if executor_type = "batch" then
          if cap.whichAvail "bsub" then some "lsf"
          else if cap.whichAvail "salloc" then some "slurm"
          else if cap.whichAvail "cqsub" then some "cobalt"
          else none
        else none
      os := none }
  match env with
  | some es =>
    if es.isEmpty then p0
    else
      match tag_schema with
      | some sch => es.foldl (applyEnvTag sch cap.ancestorMemStr) p0
      | none => p0
  | none => p0

/-- The dict entries contributed by `capture_tags`'s return value, in
Python dict insertion order (`architecture`, `micro-architecture`,
`custom` at initialisation; `scheduler` before the env loop; `os` during
it). -/
def capturePropsEntries (p : CaptureProps) : List (String × PyVal) :=
  [("architecture", .str p.architecture),
   ("micro-architecture", .list (p.micro_architecture.map .str)),
   ("custom", .list (p.custom.map .str))]
  ++ (match p.scheduler with | some s => [("scheduler", .str s)] | none => [])
  ++ (match p.os with | some s => [("os", .str s)] | none => [])

/-! ## `generate_tags` (gitlab_runner_config.py lines 67-98) -/

/-- `generate_tags(instance, executor_type, env, tag_schema)`.
Parameters model the environment: `hostname` is `socket.gethostname()`;
`osEnv` is `os.environ` lookup; `tagcap` is `some` when the custom tag
capture module was importable (otherwise the `NameError` branch logs and
skips it); `validateOk` is the `jsonschema.validate` oracle (`false`
meaning it raises `ValidationError`, which `generate_tags` re-raises,
modelled as `.error`). -/
def generate_tags (hostname : String) (osEnv : String → Option String)
    (tagcap : Option TagCapEnv) (validateOk : PyVal → TagSchema → Bool)
    (inst : String) (executor_type : String) (env : Option (List String))
    (tag_schema : Option TagSchema) : Except String (List String) :=
  let envVals : List PyVal :=
    match env with
    | some es => (es.filterMap osEnv).map PyVal.str
    | none => []
  let baseEntries : List (String × PyVal) :=
    [("hostname", .str hostname), ("executor_type", .str executor_type),
     ("instance", .str inst), ("env", .list envVals)]
  let props : PyVal := .dict (baseEntries ++
    (match tagcap with
     | some cap => capturePropsEntries (capture_tags cap inst executor_type env tag_schema)
     | none => []))
  match tag_schema with
  | some sch =>
    if validateOk props sch then .ok (flatten_values props)
    else .error "ValidationError"
  | none => .ok (flatten_values props)

/-! ## HTTP layer of `generate_config.py` -/

/-- Outcome of `urllib.request.urlopen`: either a response object whose
`getcode()` is `code` (2xx, after redirect handling), or a raised
`HTTPError` carrying the status code (every non-2xx surfaces this way). -/
inductive HttpResp where
  | success (code : Nat)
  | httpError (code : Nat)
deriving DecidableEq, Repr

/-- Result of running a piece of `generate_config.py` code: a returned
value, or a `sys.exit(code)` (which raises `SystemExit` and aborts the
run without returning a value). -/
inductive RunOutcome (α : Type) where
  | ok (a : α)
  | exit (code : Nat)
deriving DecidableEq, Repr

/-- `valid_runner_token(base_url, token)` (generate_config.py lines
28-43), as a function of the HTTP outcome of the
`POST runners/verify` request: a successful response returns `True`; an
`HTTPError` with code 403 returns `False`; any other `HTTPError` prints a
diagnostic and calls `sys.exit(1)`. -/
def valid_runner_token (resp : HttpResp) : RunOutcome Bool :=
  match resp with
  | .success _ => .ok true
  | .httpError c => if c = 403 then .ok false else .exit 1

/-! ## Executor configs (gitlab_runner_config.py lines 101-155) -/

/-- One executor config dict, as loaded from a template `.toml` file and
then normalized: `executor`, `url` and the optional `env_tags` come from
the file; `tags` and `description` are (re)computed by
`Executor.normalize`; `token` is attached during synchronisation. -/
structure ExecConfig where
  executor : String
  url : String
  env_tags : Option (List String)
  tags : List String
  description : String
  token : Option String
deriving DecidableEq, Repr

/-- Python truthiness of `c.get("token")`: `None` and `""` are falsy. -/
def tokenTruthy : Option String → Bool
  | none => false
  | some s => !(s == "")

/-- The description computed by `Executor.normalize`:
`"{host} {instance} {executor} Runner"`. -/
def descriptionOf (hostname inst executor : String) : String :=
  hostname ++ " " ++ inst ++ " " ++ executor ++ " Runner"

/-- `Executor.normalize` (lines 123-135): recompute every config's `tags`
via `generate_tags` (a `ValidationError` propagates, modelled as
`.error`) and its `description`. -/
def normalizeConfigs (hostname : String) (osEnv : String → Option String)
    (tagcap : Option TagCapEnv) (validateOk : PyVal → TagSchema → Bool)
    (inst : String) (tag_schema : Option TagSchema) :
    List ExecConfig → Except String (List ExecConfig)
  | [] => .ok []
  | c :: rest =>
    match generate_tags hostname osEnv tagcap validateOk inst c.executor c.env_tags tag_schema with
    | .error e => .error e
    | .ok tags =>
      match normalizeConfigs hostname osEnv tagcap validateOk inst tag_schema rest with
      | .error e => .error e
      | .ok rest' =>
        .ok ({ c with tags := tags, description := descriptionOf hostname inst c.executor } :: rest')

/-- Python dict assignment `m[k] = v` on an insertion-ordered dict: an
existing key keeps its position and gets the new value; a new key is
appended. -/
def dictSet {α : Type} (m : List (String × α)) (k : String) (v : α) :
    List (String × α) :=
  if m.any (fun p => p.1 == k) then
    m.map (fun p => if p.1 = k then (k, v) else p)
  else m ++ [(k, v)]

/-- `{c["description"]: c for c in configs}` (line 135): a description
shared by several configs is silently collapsed, the last config winning. -/
def by_description (configs : List ExecConfig) : List (String × ExecConfig) :=
  configs.foldl (fun m c => dictSet m c.description c) []

/-- `Executor.add_token` (lines 137-138):
`by_description[executor]["token"] = token`.  The dict comprehension kept
the *last* config for a duplicated description, so the assignment aliases
the last config in `configs` with that description; a missing description
raises `KeyError`, modelled as `none`. -/
def add_token : List ExecConfig → String → String → Option (List ExecConfig)
  | [], _, _ => none
  | c :: rest, desc, tok =>
    match add_token rest desc tok with
    | some rest' => some (c :: rest')
    | none =>
      if c.description = desc then some ({ c with token := some tok } :: rest)
      else none

/-- `Executor.missing_token(url)` (lines 140-141). -/
def missing_token (configs : List ExecConfig) (url : String) : List ExecConfig :=
  configs.filter (fun c => c.url == url && !(tokenTruthy c.token))

/-- `Executor.missing_required_config` (lines 143-155): configs lacking
any of description, token, url, executor or tags (Python truthiness).
Note: this method is never called by `generate_runner_config`. -/
def missing_required_config (configs : List ExecConfig) : List ExecConfig :=
  configs.filter (fun c =>
    !(!(c.description == "") && tokenTruthy c.token && !(c.url == "")
      && !(c.executor == "") && !c.tags.isEmpty))

/-! ## `GitLabClientManager.sync_runner_state` (lines 162-225) -/

/-- A runner record on the GitLab side.  Listing summary and detail are
merged: the model assumes the coordinator is consistent, so
`client.runners.get(r.id)` yields the listed record itself. -/
structure RemoteRunner where
  id : Nat
  token : String
  description : String
deriving DecidableEq, Repr

/-- One remote API call issued during `sync_runner_state`, in issue
order.  `list` records the `tag_list` filter string passed to
`runners.all`; `register` records the description and the joined
`tag_list` passed to `runners.create`. -/
inductive SyncCall where
  | list (url : String) (tag_list : String)
  | delete (url : String) (id : Nat)
  | register (url : String) (description : String) (tag_list : String)
deriving DecidableEq, Repr

/-- One entry of `GitLabClientManager.clients` together with its
registration token and remote-side oracles: `listing` is what
`client.runners.all` returns for this host's tag filter, and `newToken`
the token minted by `client.runners.create` for a given description. -/
structure ClientState where
  url : String
  registration_token : String
  listing : List RemoteRunner
  newToken : String → String

/-- The listing loop of `sync_runner_state` (lines 178-197): for each
listed remote runner, restore its token onto the matching local config,
or — on `KeyError`, i.e. no local config with that description — delete
the remote runner. -/
def processListing (url : String) : List RemoteRunner → List ExecConfig →
    List SyncCall × List ExecConfig
  | [], execs => ([], execs)
  | r :: rest, execs =>
    match add_token execs r.description r.token with
    | some execs' => processListing url rest execs'
    | none =>
      let (cs, e') := processListing url rest execs
      (SyncCall.delete url r.id :: cs, e')

/-- The registration loop of `sync_runner_state` (lines 199-213), applied
to the snapshot of `missing_token` configs: each missing config is
registered (`runners.create`) and the returned token attached via
`add_token`.  The `add_token` lookup cannot raise here (the description
belongs to a config in the list), so the `getD` fallback is unreachable. -/
def registerLoop (url : String) (newToken : String → String) :
    List ExecConfig → List ExecConfig → List SyncCall × List ExecConfig
  | [], execs => ([], execs)
  | m :: rest, execs =>
    let execs' := (add_token execs m.description (newToken m.description)).getD execs
    let (cs, e') := registerLoop url newToken rest execs'
    (SyncCall.register url m.description (commaJoin m.tags) :: cs, e')

/-- `GitLabClientManager.sync_runner_state` (lines 175-225): per client,
list the remote runners scoped by the identity tag filter, adopt or
delete each, then register every config still missing a token.  A
`ValueError` from `identifying_tags` propagates (it is not one of the
caught GitLab exceptions) before the client's listing call is issued.
Remote calls themselves are modelled as succeeding; the trace of issued
calls is returned together with the final executor configs (or the
propagated error). -/
def sync_runner_state (hostname inst : String) :
    List ClientState → List ExecConfig → List SyncCall × Except String (List ExecConfig)
  | [], execs => ([], .ok execs)
  | cl :: rest, execs =>
    match identifying_tags hostname inst with
    | .error e => ([], .error e)
    | .ok tags =>
      let (cs1, e1) := processListing cl.url cl.listing execs
      let (cs2, e2) := registerLoop cl.url cl.newToken (missing_token e1 cl.url) e1
      let (cs3, r3) := sync_runner_state hostname inst rest e2
      (SyncCall.list cl.url (commaJoin tags) :: (cs1 ++ cs2 ++ cs3), r3)

/-! ## `generate_runner_config` (lines 228-294) -/

/-- One entry of the template's `client_configs`. -/
structure ClientConfig where
  url : String
  registration_token : String
  personal_access_token : String
deriving DecidableEq, Repr

/-- Environment of a `generate_runner_config` run: the hostname and
library oracles for tag generation, plus the remote-side oracles keyed by
client url. -/
structure GRCEnv where
  hostname : String
  osEnv : String → Option String
  tagcap : Option TagCapEnv
  validateOk : PyVal → TagSchema → Bool
  listingOf : String → List RemoteRunner
  newTokenOf : String → String → String

/-- `GitLabClientManager.__init__` (lines 163-173): clients and
registration tokens are dicts keyed by url, so a duplicated url keeps its
first position with the last config's values. -/
def mkClients (E : GRCEnv) (ccs : List ClientConfig) : List ClientState :=
  (ccs.foldl (fun m cc => dictSet m cc.url cc) []).map
    (fun p => ⟨p.1, p.2.registration_token, E.listingOf p.1, E.newTokenOf p.1⟩)

/-- Observable result of one `generate_runner_config` run: the exit code
(`some` when the run aborted), the `runners` list written to the instance
config file (`none` when nothing was written), and the remote calls
issued. -/
structure GenResult where
  exitCode : Option Nat
  written : Option (List ExecConfig)
  calls : List SyncCall
deriving Repr

/-- `generate_runner_config` (lines 253-294): permission check, template
read, executor loading and normalisation, state sync, then the config
file write (`runner.to_dict()["runners"]` is the final executor config
list).  `permsOk` models `secure_permissions`; `template` is the parsed
`client_configs` of `config.template.<instance>.toml` (`none` = missing
file); `rawExecs` are the executor template files' contents.  An
uncaught `ValidationError` or `ValueError`, like the explicit
`sys.exit(1)` paths, aborts the run before any write. -/
def generate_runner_config (E : GRCEnv) (permsOk : Bool)
    (template : Option (List ClientConfig)) (inst : String)
    (rawExecs : List ExecConfig) (tag_schema : Option TagSchema) : GenResult :=
  if permsOk = false then ⟨some 1, none, []⟩
  else
    match template with
    | none => ⟨some 1, none, []⟩
    | some ccs =>
      match normalizeConfigs E.hostname E.osEnv E.tagcap E.validateOk inst tag_schema rawExecs with
      | .error _ => ⟨some 1, none, []⟩
      | .ok execs =>
        match sync_runner_state E.hostname inst (mkClients E ccs) execs with
        | (calls, .error _) => ⟨some 1, none, calls⟩
        | (calls, .ok execs') => ⟨none, some execs', calls⟩

/-! ## `configure_runner` (generate_config.py lines 110-178) -/

/-- One runner's persisted snapshot entry in `data.json`: id and token. -/
structure RunnerData where
  id : Nat
  token : String
deriving DecidableEq, Repr

/-- A mutating remote call issued by `configure_runner`. -/
inductive GCCall where
  | delete (id : Nat)
  | register (runner_type : String)
deriving DecidableEq, Repr

/-- Remote-side oracles for `configure_runner`: the HTTP outcome of the
verify request for a token, of the delete request for a token, and of
the register request for a runner type, plus the parsed body returned by
a successful registration. -/
structure GCRemote where
  verifyResp : String → HttpResp
  deleteResp : String → HttpResp
  registerResp : String → HttpResp
  registerPayload : String → RunnerData

/-- `delete_existing_runner` (lines 73-94): a 204 response returns
`True`; any other outcome prints a diagnostic and exits. -/
def delete_existing_runner (resp : HttpResp) : RunOutcome Bool :=
  match resp with
  | .success c => if c = 204 then .ok true else .exit 1
  | .httpError _ => .exit 1

/-- `register_new_runner` (lines 46-70): a 201 response returns the
parsed runner info; any other outcome prints a diagnostic and exits. -/
def register_new_runner (resp : HttpResp) (payload : RunnerData) : RunOutcome RunnerData :=
  match resp with
  | .success c => if c = 201 then .ok payload else .exit 1
  | .httpError _ => .exit 1

/-- One iteration of the staleness-refresh loop of `configure_runner`
(lines 149-155) for a stored declaration: verify its token; when
invalid, delete the old registration then register anew.  Returns the
mutating calls issued (in order, including a call whose response then
aborted the run), the replacement snapshot entry when re-registered, and
the exit code when the iteration aborted. -/
def refreshDecl (R : GCRemote) (t : String) (d : RunnerData) :
    List GCCall × Option RunnerData × Option Nat :=
  match valid_runner_token (R.verifyResp d.token) with
  | .ok true => ([], none, none)
  | .ok false =>
    match delete_existing_runner (R.deleteResp d.token) with
    | .exit n => ([GCCall.delete d.id], none, some n)
    | .ok _ =>
      match register_new_runner (R.registerResp t) (R.registerPayload t) with
      | .ok d' => ([GCCall.delete d.id, GCCall.register t], some d', none)
      | .exit n => ([GCCall.delete d.id, GCCall.register t], none, some n)
  | .exit n => ([], none, some n)

/-- The `for runner_type, data in runner_config.items()` loop (lines
149-155): threads the `changed` flag and the updated snapshot mapping;
an exit aborts the remaining iterations. -/
def syncLoop (R : GCRemote) :
    List (String × RunnerData) → List GCCall × Bool × List (String × RunnerData) × Option Nat
  | [] => ([], false, [], none)
  | (t, d) :: rest =>
    match refreshDecl R t d with
    | (cs, upd, some n) => (cs, upd.isSome, (t, upd.getD d) :: rest, some n)
    | (cs, upd, none) =>
      let (cs', ch', cfg', ex') := syncLoop R rest
      (cs ++ cs', upd.isSome || ch', (t, upd.getD d) :: cfg', ex')

/-- Observable result of a `configure_runner` run. -/
structure ConfigureResult where
  calls : List GCCall
  dataFileWritten : Option (List (String × RunnerData))
  configWritten : Bool
  exitCode : Option Nat
deriving DecidableEq, Repr

/-- `configure_runner` (lines 110-178): with a snapshot (`data.json`)
present, run the staleness-refresh loop and rewrite the snapshot and the
rendered config file only when some token changed; with no snapshot,
register a shell and a batch runner and write both files.  File writes
are modelled by the mapping content they would serialise
(`dataFileWritten = none` means the snapshot file was not touched;
`json.dumps`'s key sorting is abstracted away). -/
def configure_runner (R : GCRemote) (dataFile : Option (List (String × RunnerData))) :
    ConfigureResult :=
  match dataFile with
  | some cfg =>
    match syncLoop R cfg with
    | (cs, _, _, some n) => ⟨cs, none, false, some n⟩
    | (cs, changed, cfg', none) =>
      if changed then ⟨cs, some cfg', true, none⟩
      else ⟨cs, none, false, none⟩
  | none =>
    match register_new_runner (R.registerResp "shell") (R.registerPayload "shell") with
    | .exit n => ⟨[GCCall.register "shell"], none, false, some n⟩
    | .ok dS =>
      match register_new_runner (R.registerResp "batch") (R.registerPayload "batch") with
      | .exit n => ⟨[GCCall.register "shell", GCCall.register "batch"], none, false, some n⟩
      | .ok dB =>
        ⟨[GCCall.register "shell", GCCall.register "batch"],
         some [("shell", dS), ("batch", dB)], true, none⟩

/-- Whether a sync call is a delete of the runner id `rid` (on any
endpoint). -/
def isDeleteId (rid : Nat) : SyncCall → Bool
  | .delete _ j => j == rid
  | _ => false

/-- A remote oracle in which the token `"good"` verifies valid and every
other token gets 403; deletion returns 204 and registration 201 with a
fresh token. -/
def staleOracle : GCRemote :=
  ⟨fun tok => if tok = "good" then .success 200 else .httpError 403,
   fun _ => .success 204,
   fun _ => .success 201,
   fun _ => ⟨3, "newtok"⟩⟩

/-- A remote oracle in which every token verifies valid. -/
def allValidOracle : GCRemote :=
  ⟨fun _ => .success 200, fun _ => .success 204, fun _ => .success 201, fun _ => ⟨9, "n"⟩⟩

/-! ## Lemmas about the identity tag set -/

theorem mem_pyInsert {l : List String} {x a : String} :
    a ∈ pyInsert l x ↔ a ∈ l ∨ a = x := by
  unfold pyInsert
  split
  · next h =>
      constructor
      · exact Or.inl
      · rintro (ha | rfl)
        · exact ha
        · exact h
  · simp [List.mem_append]

theorem nodup_pyInsert {l : List String} {x : String} (h : l.Nodup) :
    (pyInsert l x).Nodup := by
  unfold pyInsert
  split
  · exact h
  · next hx => simpa [List.nodup_append, h] using hx

theorem mem_foldl_pyInsert :
    ∀ (xs acc : List String) (a : String),
      a ∈ xs.foldl pyInsert acc ↔ a ∈ acc ∨ a ∈ xs := by
  intro xs
  induction xs with
  | nil => intro acc a; simp
  | cons x rest ih =>
    intro acc a
    simp only [List.foldl_cons, ih, mem_pyInsert, List.mem_cons]
    tauto

theorem nodup_foldl_pyInsert :
    ∀ (xs acc : List String), acc.Nodup → (xs.foldl pyInsert acc).Nodup := by
  intro xs
  induction xs with
  | nil => intro acc h; exact h
  | cons x rest ih => intro acc h; exact ih _ (nodup_pyInsert h)

theorem mem_pySet {xs : List String} {a : String} : a ∈ pySet xs ↔ a ∈ xs := by
  unfold pySet; rw [mem_foldl_pyInsert]; simp

theorem nodup_pySet (xs : List String) : (pySet xs).Nodup :=
  nodup_foldl_pyInsert xs [] List.nodup_nil

/-! ## Claim theorems: tag layer -/

/-- C10: `identifying_tags` raises `ValueError` exactly when the instance
name equals the hostname, the digit-stripped hostname, or `"managed"`;
for every other instance name it returns a list containing all four of
those identifiers, with no duplicates. -/
theorem identifying_tags_spec (hostname inst : String) :
    ((∃ e, identifying_tags hostname inst = .error e) ↔
      (inst = hostname ∨ inst = stripDigits hostname ∨ inst = "managed"))
  ∧ ∀ l, identifying_tags hostname inst = .ok l →
      hostname ∈ l ∧ stripDigits hostname ∈ l ∧ "managed" ∈ l ∧ inst ∈ l ∧ l.Nodup := by
  unfold identifying_tags
  have hmem : ∀ a : String,
      a ∈ pySet [hostname, stripDigits hostname, "managed"] ↔
        (a = hostname ∨ a = stripDigits hostname ∨ a = "managed") := by
    intro a; rw [mem_pySet]; simp
  by_cases hin : inst ∈ pySet [hostname, stripDigits hostname, "managed"]
  · constructor
    · simp only [if_pos hin]
      constructor
      · intro _; exact (hmem inst).mp hin
      · intro _; exact ⟨_, rfl⟩
    · intro l hl
      rw [if_pos hin] at hl
      cases hl
  · constructor
    · simp only [if_neg hin]
      constructor
      · rintro ⟨e, he⟩; cases he
      · intro h; exact absurd ((hmem inst).mpr h) hin
    · intro l hl
      rw [if_neg hin] at hl
      injection hl with hl
      subst hl
      refine ⟨?_, ?_, ?_, ?_, ?_⟩
      · exact List.mem_append_left _ ((hmem hostname).mpr (Or.inl rfl))
      · exact List.mem_append_left _ ((hmem _).mpr (Or.inr (Or.inl rfl)))
      · exact List.mem_append_left _ ((hmem _).mpr (Or.inr (Or.inr rfl)))
      · exact List.mem_append_right _ (List.mem_singleton.mpr rfl)
      · rw [List.nodup_append]
        exact ⟨nodup_pySet _, List.nodup_singleton _,
          by intro a ha hb; rw [List.mem_singleton] at hb; subst hb; exact hin ha⟩

theorem identifying_tags_spec_witness :
    "node01" ∈ ["node01", "node", "managed", "main"]
  ∧ (["node01", "node", "managed", "main"] : List String).Nodup := by
  have h2 := (identifying_tags_spec "node01" "main").2
    ["node01", "node", "managed", "main"] rfl
  exact ⟨h2.1, h2.2.2.2.2⟩

/-- C6: the list returned by `generate_tags` does NOT in general contain
the digit-stripped hostname: evaluated at hostname `"node01"`, instance
`"main"`, empty executor type, no environment tags, no schema and no
custom capture module, the result is `["node01", "", "main"]`, which does
not contain `"node"` (`stripDigits "node01"`).  This contradicts the
claim (and the repository's own test, which asserts
`re.sub(r"\d", "", hostname) in tags`). -/
theorem generate_tags_missing_stripped_hostname :
    generate_tags "node01" (fun _ => none) none (fun _ _ => true) "main" "" none none
      = .ok ["node01", "", "main"]
  ∧ stripDigits "node01" ∉ ["node01", "", "main"] := by
  refine ⟨rfl, ?_⟩
  decide

/-- C7: for executor type `"batch"`, `capture_tags` adds at most one
scheduler tag, chosen by fixed priority order — `bsub`→`lsf` first, then
`salloc`→`slurm`, then `cqsub`→`cobalt`, the first executable found in
the search path winning — and adds none when no scheduler executable is
found; for any other executor type no scheduler tag is added.  The env
processing loop never touches the scheduler entry. -/
theorem capture_tags_scheduler (cap : TagCapEnv) (inst : String)
    (env : Option (List String)) (sch : Option TagSchema) :
    ((capture_tags cap inst "batch" env sch).scheduler =
      (if cap.whichAvail "bsub" then some "lsf"
       else if cap.whichAvail "salloc" then some "slurm"
       else if cap.whichAvail "cqsub" then some "cobalt"
       else none))
  ∧ ∀ et, et ≠ "batch" → (capture_tags cap inst et env sch).scheduler = none := by
  have happ : ∀ (s : TagSchema) (p : CaptureProps) (e : String),
      (applyEnvTag s cap.ancestorMemStr p e).scheduler = p.scheduler := by
    intro s p e
    unfold applyEnvTag
    split
    · rfl
    · split
      · rfl
      · split <;> rfl
  have hfold : ∀ (s : TagSchema) (es : List String) (p : CaptureProps),
      (es.foldl (applyEnvTag s cap.ancestorMemStr) p).scheduler = p.scheduler := by
    intro s es
    induction es with
    | nil => intro p; rfl
    | cons e rest ih => intro p; rw [List.foldl_cons, ih, happ]
  have hbody : ∀ (et : String) (p0 : CaptureProps),
      (match env with
       | some es =>
         if es.isEmpty then p0
         else
           match sch with
           | some s => es.foldl (applyEnvTag s cap.ancestorMemStr) p0
           | none => p0
       | none => p0).scheduler = p0.scheduler := by
    intro et p0
    cases env with
    | none => rfl
    | some es =>
      simp only
      split
      · rfl
      · cases sch with
        | none => rfl
        | some s => exact hfold s es p0
  constructor
  · unfold capture_tags
    rw [hbody "batch"]
    simp
  · intro et het
    unfold capture_tags
    rw [hbody et]
    simp [het]

theorem capture_tags_scheduler_witness :
    (capture_tags ⟨⟨"zen2", []⟩, fun e => e == "salloc", fun _ => false⟩
        "main" "batch" none none).scheduler = some "slurm"
  ∧ (capture_tags ⟨⟨"zen2", []⟩, fun e => e == "salloc", fun _ => false⟩
        "main" "shell" none none).scheduler = none := by
  have h := capture_tags_scheduler
    ⟨⟨"zen2", []⟩, fun e => e == "salloc", fun _ => false⟩ "main" none none
  exact ⟨h.1.trans (by decide), h.2 "shell" (by decide)⟩

/-- C8 counterexample: the tag list returned by `generate_tags` can
contain duplicates — when the instance name equals the executor type the
flattened property values repeat that string. -/
theorem generate_tags_duplicates_counterexample :
    generate_tags "host" (fun _ => none) none (fun _ _ => true) "shell" "shell" none none
      = .ok ["host", "shell", "shell"]
  ∧ ¬ (["host", "shell", "shell"] : List String).Nodup := by
  refine ⟨rfl, ?_⟩
  decide

/-- C8 amended: the list returned by `generate_tags` is never empty (its
head is always the hostname), but it may contain duplicate entries. -/
theorem generate_tags_ne_nil (hostname : String) (osEnv : String → Option String)
    (tagcap : Option TagCapEnv) (validateOk : PyVal → TagSchema → Bool)
    (inst et : String) (env : Option (List String)) (sch : Option TagSchema)
    (l : List String)
    (h : generate_tags hostname osEnv tagcap validateOk inst et env sch = .ok l) :
    l ≠ [] ∧ l.head? = some hostname := by
  unfold generate_tags at h
  cases sch with
  | none =>
    simp only [flatten_values, flattenEntries, flattenList, List.cons_append] at h
    injection h with h
    subst h
    exact ⟨by simp, rfl⟩
  | some s =>
    simp only at h
    split at h
    · simp only [flatten_values, flattenEntries, flattenList, List.cons_append] at h
      injection h with h
      subst h
      exact ⟨by simp, rfl⟩
    · cases h

theorem generate_tags_ne_nil_witness :
    (["host", "", "main"] : List String) ≠ []
  ∧ (["host", "", "main"] : List String).head? = some "host" :=
  generate_tags_ne_nil "host" (fun _ => none) none (fun _ _ => true) "main" ""
    none none ["host", "", "main"] rfl

/-- C2: a token verification call receiving HTTP 403 returns `False` (a
valid negative result), a 2xx response returns `True`, and every other
non-2xx response (surfacing as `HTTPError`) aborts via `sys.exit(1)`
rather than returning a boolean. -/
theorem valid_runner_token_spec :
    valid_runner_token (.httpError 403) = .ok false
  ∧ (∀ c, valid_runner_token (.success c) = .ok true)
  ∧ ∀ c, c ≠ 403 →
      valid_runner_token (.httpError c) = .exit 1
    ∧ ∀ b, valid_runner_token (.httpError c) ≠ .ok b := by
  refine ⟨rfl, fun c => rfl, fun c hc => ?_⟩
  simp only [valid_runner_token]
  rw [if_neg hc]
  exact ⟨rfl, fun b h => by cases h⟩

theorem valid_runner_token_spec_witness :
    valid_runner_token (.httpError 500) = .exit 1
  ∧ ∀ b, valid_runner_token (.httpError 500) ≠ .ok b :=
  valid_runner_token_spec.2.2 500 (by decide)

/-! ## Claim theorems: executor normalisation -/

/-- C4 counterexample: two distinct declarations with the same `url` and
the same executor type normalize to the same description, yet
`Executor.normalize` returns successfully — no configuration error is
raised; the collision is not detected. -/
theorem normalize_collision_counterexample :
    normalizeConfigs "host" (fun _ => none) none (fun _ _ => true) "main" none
      [⟨"shell", "u", none, [], "", none⟩, ⟨"shell", "u", some [], [], "", none⟩]
    = .ok [⟨"shell", "u", none, ["host", "shell", "main"], "host main shell Runner", none⟩,
           ⟨"shell", "u", some [], ["host", "shell", "main"], "host main shell Runner", none⟩]
  ∧ (⟨"shell", "u", none, ["host", "shell", "main"], "host main shell Runner", none⟩ : ExecConfig)
      ≠ ⟨"shell", "u", some [], ["host", "shell", "main"], "host main shell Runner", none⟩
  ∧ ∀ e, normalizeConfigs "host" (fun _ => none) none (fun _ _ => true) "main" none
      [⟨"shell", "u", none, [], "", none⟩, ⟨"shell", "u", some [], [], "", none⟩] ≠ .error e := by
  refine ⟨rfl, by decide, fun e h => ?_⟩
  rw [show normalizeConfigs "host" (fun _ => none) none (fun _ _ => true) "main" none
      [⟨"shell", "u", none, [], "", none⟩, ⟨"shell", "u", some [], [], "", none⟩]
    = .ok [⟨"shell", "u", none, ["host", "shell", "main"], "host main shell Runner", none⟩,
           ⟨"shell", "u", some [], ["host", "shell", "main"], "host main shell Runner", none⟩] from rfl] at h
  cases h

/-- Helper: building `by_description` from two configs sharing a
description keeps a single entry, the later config winning. -/
theorem by_description_pair (n1 n2 : ExecConfig) (h : n1.description = n2.description) :
    by_description [n1, n2] = [(n2.description, n2)] := by
  simp only [by_description, List.foldl_cons, List.foldl_nil]
  rw [h]
  show dictSet [(n2.description, n1)] n2.description n2 = [(n2.description, n2)]
  unfold dictSet
  simp

/-- C4 amended: a description collision between two declarations (same
executor type, hence — under one endpoint — identical `{remote_url,
description}`) is NOT a fatal error: `normalize` (with no tag schema)
returns successfully and the collision is silently collapsed in the
`by_description` index, the later declaration winning. -/
theorem normalize_collision_silent (hostname inst : String)
    (osEnv : String → Option String) (tagcap : Option TagCapEnv)
    (validateOk : PyVal → TagSchema → Bool)
    (c1 c2 : ExecConfig) (hex : c1.executor = c2.executor) :
    ∃ n1 n2,
      normalizeConfigs hostname osEnv tagcap validateOk inst none [c1, c2] = .ok [n1, n2]
    ∧ n1.description = n2.description
    ∧ by_description [n1, n2] = [(n2.description, n2)] := by
  obtain ⟨t1, ht1⟩ : ∃ t,
      generate_tags hostname osEnv tagcap validateOk inst c1.executor c1.env_tags none = .ok t :=
    ⟨_, rfl⟩
  obtain ⟨t2, ht2⟩ : ∃ t,
      generate_tags hostname osEnv tagcap validateOk inst c2.executor c2.env_tags none = .ok t :=
    ⟨_, rfl⟩
  have hd : descriptionOf hostname inst c1.executor = descriptionOf hostname inst c2.executor := by
    rw [hex]
  refine ⟨{ c1 with tags := t1, description := descriptionOf hostname inst c1.executor },
          { c2 with tags := t2, description := descriptionOf hostname inst c2.executor },
          ?_, hd, by_description_pair _ _ hd⟩
  simp only [normalizeConfigs, ht1, ht2]

theorem normalize_collision_silent_witness :
    ∃ n1 n2,
      normalizeConfigs "host" (fun _ => none) none (fun _ _ => true) "main" none
        [⟨"shell", "u", none, [], "", none⟩, ⟨"shell", "u", some [], [], "", none⟩] = .ok [n1, n2]
    ∧ n1.description = n2.description
    ∧ by_description [n1, n2] = [(n2.description, n2)] :=
  normalize_collision_silent "host" "main" (fun _ => none) none (fun _ _ => true)
    ⟨"shell", "u", none, [], "", none⟩ ⟨"shell", "u", some [], [], "", none⟩ rfl

/-- C5: `generate_runner_config` CAN emit a config file referencing a
declaration with a missing token without aborting: with secure
permissions, a readable template whose `client_configs` list is empty,
and one declared shell executor, the run completes (exit code `none`)
and writes the executor with `token = none` — the very situation
`missing_required_config` (which is never called) exists to detect. -/
theorem generate_runner_config_writes_missing_token :
    generate_runner_config
      ⟨"host", fun _ => none, none, fun _ _ => true, fun _ => [], fun _ _ => "tok"⟩
      true (some []) "main" [⟨"shell", "http://u", none, [], "", none⟩] none
    = ⟨none,
       some [⟨"shell", "http://u", none, ["host", "shell", "main"],
             "host main shell Runner", none⟩],
       []⟩
  ∧ tokenTruthy (⟨"shell", "http://u", none, ["host", "shell", "main"],
        "host main shell Runner", none⟩ : ExecConfig).token = false
  ∧ missing_required_config
      [⟨"shell", "http://u", none, ["host", "shell", "main"], "host main shell Runner", none⟩]
    = [⟨"shell", "http://u", none, ["host", "shell", "main"], "host main shell Runner", none⟩] := by
  exact ⟨rfl, rfl, rfl⟩

/-! ## Lemmas about the staleness-refresh loop of `configure_runner` -/

theorem refreshDecl_valid (R : GCRemote) (t : String) (d : RunnerData)
    (h : valid_runner_token (R.verifyResp d.token) = .ok true) :
    refreshDecl R t d = ([], none, none) := by
  unfold refreshDecl
  rw [h]

theorem refreshDecl_calls (R : GCRemote) (t : String) (d : RunnerData) :
    ∀ c ∈ (refreshDecl R t d).1,
      (c = GCCall.delete d.id ∨ c = GCCall.register t)
      ∧ valid_runner_token (R.verifyResp d.token) = .ok false := by
  intro c hc
  unfold refreshDecl at hc
  rcases hv : valid_runner_token (R.verifyResp d.token) with b | n
  · cases b with
    | true => rw [hv] at hc; cases hc
    | false =>
      rw [hv] at hc
      refine ⟨?_, rfl⟩
      rcases h2 : delete_existing_runner (R.deleteResp d.token) with b2 | n2
      · rw [h2] at hc
        rcases h3 : register_new_runner (R.registerResp t) (R.registerPayload t) with d' | n3 <;>
          · rw [h3] at hc
            simp only [List.mem_cons, List.mem_singleton, List.not_mem_nil, or_false] at hc
            tauto
      · rw [h2] at hc
        simp only [List.mem_singleton] at hc
        exact Or.inl hc
  · rw [hv] at hc; cases hc

theorem syncLoop_calls (R : GCRemote) :
    ∀ cfg : List (String × RunnerData), ∀ c ∈ (syncLoop R cfg).1,
      ∃ t d, (t, d) ∈ cfg ∧ (c = GCCall.delete d.id ∨ c = GCCall.register t)
        ∧ valid_runner_token (R.verifyResp d.token) = .ok false := by
  intro cfg
  induction cfg with
  | nil => intro c hc; cases hc
  | cons td rest ih =>
    obtain ⟨t, d⟩ := td
    intro c hc
    rcases hrd : refreshDecl R t d with ⟨cs, upd, ex⟩
    cases ex with
    | some n =>
      simp only [syncLoop, hrd] at hc
      have := refreshDecl_calls R t d c (by rw [hrd]; exact hc)
      exact ⟨t, d, List.mem_cons_self _ _, this.1, this.2⟩
    | none =>
      rcases hs : syncLoop R rest with ⟨cs', ch', cfg', ex'⟩
      simp only [syncLoop, hrd, hs] at hc
      rcases List.mem_append.mp hc with h1 | h2
      · have := refreshDecl_calls R t d c (by rw [hrd]; exact h1)
        exact ⟨t, d, List.mem_cons_self _ _, this.1, this.2⟩
      · obtain ⟨t', d', hm, hshape, hv⟩ := ih c (by rw [hs]; exact h2)
        exact ⟨t', d', List.mem_cons_of_mem _ hm, hshape, hv⟩

theorem syncLoop_allValid (R : GCRemote) :
    ∀ cfg : List (String × RunnerData),
      (∀ t d, (t, d) ∈ cfg → valid_runner_token (R.verifyResp d.token) = .ok true) →
      syncLoop R cfg = ([], false, cfg, none) := by
  intro cfg
  induction cfg with
  | nil => intro _; rfl
  | cons td rest ih =>
    obtain ⟨t, d⟩ := td
    intro hall
    have hd := hall t d (List.mem_cons_self _ _)
    have hrest := ih (fun t' d' h => hall t' d' (List.mem_cons_of_mem _ h))
    simp only [syncLoop, refreshDecl_valid R t d hd, hrest]
    rfl

theorem configure_runner_calls (R : GCRemote) (cfg : List (String × RunnerData)) :
    (configure_runner R (some cfg)).calls = (syncLoop R cfg).1 := by
  rcases hs : syncLoop R cfg with ⟨cs, ch, cfg', ex⟩
  cases ex with
  | some n => simp only [configure_runner, hs]
  | none =>
    simp only [configure_runner, hs]
    split <;> rfl

/-! ## Claim theorems: `configure_runner` -/

/-- C3 counterexample: in a run whose snapshot holds the declarations
`batch` (stale token) and `shell` (valid token), the `shell` declaration
verifies valid, yet the run rewrites both the snapshot file (with
changed content) and the rendered config file — so "token verifies valid
⟹ both files left unchanged", quantified per declaration, is false. -/
theorem configure_runner_counterexample :
    valid_runner_token (staleOracle.verifyResp "good") = .ok true
  ∧ ("shell", (⟨2, "good"⟩ : RunnerData))
      ∈ [("batch", (⟨1, "bad"⟩ : RunnerData)), ("shell", ⟨2, "good"⟩)]
  ∧ configure_runner staleOracle
      (some [("batch", ⟨1, "bad"⟩), ("shell", ⟨2, "good"⟩)])
    = ⟨[GCCall.delete 1, GCCall.register "batch"],
       some [("batch", ⟨3, "newtok"⟩), ("shell", ⟨2, "good"⟩)], true, none⟩
  ∧ ([("batch", (⟨3, "newtok"⟩ : RunnerData)), ("shell", ⟨2, "good"⟩)]
      ≠ [("batch", (⟨1, "bad"⟩ : RunnerData)), ("shell", ⟨2, "good"⟩)]) := by
  refine ⟨rfl, by decide, rfl, by decide⟩

/-- C3 amended: (fast path) when every stored declaration's token
verifies valid, the run performs zero mutating remote calls and leaves
the snapshot and config files untouched; (per declaration) a declaration
whose token verifies valid is never the subject of a delete or register
call; and delete/register calls happen only for declarations whose
verification returned invalid (403). -/
theorem configure_runner_amended (R : GCRemote) (cfg : List (String × RunnerData)) :
    ((∀ t d, (t, d) ∈ cfg → valid_runner_token (R.verifyResp d.token) = .ok true) →
        (configure_runner R (some cfg)).calls = []
      ∧ (configure_runner R (some cfg)).dataFileWritten = none
      ∧ (configure_runner R (some cfg)).configWritten = false)
  ∧ (∀ t d, (t, d) ∈ cfg →
      valid_runner_token (R.verifyResp d.token) = .ok true →
      (cfg.map Prod.fst).Nodup →
      (cfg.map (fun p => p.2.id)).Nodup →
        GCCall.register t ∉ (configure_runner R (some cfg)).calls
      ∧ GCCall.delete d.id ∉ (configure_runner R (some cfg)).calls)
  ∧ (∀ t, GCCall.register t ∈ (configure_runner R (some cfg)).calls →
      ∃ d, (t, d) ∈ cfg ∧ valid_runner_token (R.verifyResp d.token) = .ok false)
  ∧ (∀ i, GCCall.delete i ∈ (configure_runner R (some cfg)).calls →
      ∃ t d, (t, d) ∈ cfg ∧ d.id = i
        ∧ valid_runner_token (R.verifyResp d.token) = .ok false) := by
  have hreg : ∀ t, GCCall.register t ∈ (configure_runner R (some cfg)).calls →
      ∃ d, (t, d) ∈ cfg ∧ valid_runner_token (R.verifyResp d.token) = .ok false := by
    intro t hc
    rw [configure_runner_calls] at hc
    obtain ⟨t', d', hm, hshape, hv⟩ := syncLoop_calls R cfg _ hc
    rcases hshape with h | h
    · cases h
    · injection h with h
      subst h
      exact ⟨d', hm, hv⟩
  have hdel : ∀ i, GCCall.delete i ∈ (configure_runner R (some cfg)).calls →
      ∃ t d, (t, d) ∈ cfg ∧ d.id = i
        ∧ valid_runner_token (R.verifyResp d.token) = .ok false := by
    intro i hc
    rw [configure_runner_calls] at hc
    obtain ⟨t', d', hm, hshape, hv⟩ := syncLoop_calls R cfg _ hc
    rcases hshape with h | h
    · injection h with h
      subst h
      exact ⟨t', d', hm, rfl, hv⟩
    · cases h
  refine ⟨?_, ?_, hreg, hdel⟩
  · intro hall
    have h := syncLoop_allValid R cfg hall
    refine ⟨?_, ?_, ?_⟩ <;> simp [configure_runner, h]
  · intro t d hm hv hkeys hids
    constructor
    · intro hc
      obtain ⟨d', hm', hv'⟩ := hreg t hc
      have hpair : (t, d) = (t, d') :=
        List.inj_on_of_nodup_map hkeys hm hm' rfl
      have hdd : d = d' := congrArg Prod.snd hpair
      rw [← hdd, hv] at hv'
      cases hv'
    · intro hc
      obtain ⟨t', d', hm', hid, hv'⟩ := hdel d.id hc
      have hpair : (t', d') = (t, d) :=
        List.inj_on_of_nodup_map hids hm' hm hid
      have hdd : d' = d := congrArg Prod.snd hpair
      rw [hdd, hv] at hv'
      cases hv'

theorem configure_runner_amended_witness :
    (configure_runner allValidOracle (some [("shell", ⟨1, "t"⟩)])).calls = []
  ∧ (configure_runner allValidOracle (some [("shell", ⟨1, "t"⟩)])).dataFileWritten = none
  ∧ (configure_runner allValidOracle (some [("shell", ⟨1, "t"⟩)])).configWritten = false :=
  (configure_runner_amended allValidOracle [("shell", ⟨1, "t"⟩)]).1 (fun _ _ _ => rfl)

/-! ## Lemmas about `sync_runner_state` -/

theorem add_token_some_desc :
    ∀ (l : List ExecConfig) (desc tok : String) (l' : List ExecConfig),
      add_token l desc tok = some l' →
      l'.map ExecConfig.description = l.map ExecConfig.description := by
  intro l
  induction l with
  | nil => intro desc tok l' h; cases h
  | cons c rest ih =>
    intro desc tok l' h
    rw [add_token] at h
    cases h1 : add_token rest desc tok with
    | some rest' =>
      rw [h1] at h
      injection h with h
      subst h
      simp only [List.map_cons]
      rw [ih desc tok rest' h1]
    | none =>
      rw [h1] at h
      by_cases hd : c.description = desc
      · rw [if_pos hd] at h
        injection h with h
        subst h
        rfl
      · rw [if_neg hd] at h
        cases h

theorem add_token_none_iff :
    ∀ (l : List ExecConfig) (desc tok : String),
      add_token l desc tok = none ↔ desc ∉ l.map ExecConfig.description := by
  intro l
  induction l with
  | nil => intro desc tok; simp [add_token]
  | cons c rest ih =>
    intro desc tok
    rw [add_token]
    cases h1 : add_token rest desc tok with
    | some rest' =>
      constructor
      · intro h; cases h
      · intro h
        exfalso
        apply h
        apply List.mem_cons.mpr
        right
        by_contra hmem
        rw [(ih desc tok).mpr hmem] at h1
        cases h1
    | none =>
      have hrest := (ih desc tok).mp h1
      by_cases hd : c.description = desc
      · rw [if_pos hd]
        constructor
        · intro h; cases h
        · intro h
          exfalso
          exact h (List.mem_cons.mpr (Or.inl hd.symm))
      · rw [if_neg hd]
        constructor
        · intro _ hmem
          rcases List.mem_cons.mp hmem with h | h
          · exact hd h.symm
          · exact hrest h
        · intro _
          rfl

theorem add_token_getD_desc (l : List ExecConfig) (desc tok : String) :
    ((add_token l desc tok).getD l).map ExecConfig.description
      = l.map ExecConfig.description := by
  cases h : add_token l desc tok with
  | some l' => simpa using add_token_some_desc l desc tok l' h
  | none => rfl

theorem processListing_spec (u : String) :
    ∀ (rl : List RemoteRunner) (execs : List ExecConfig),
      (processListing u rl execs).1
        = (rl.filter
            (fun rr => !decide (rr.description ∈ execs.map ExecConfig.description))).map
              (fun rr => SyncCall.delete u rr.id)
    ∧ ((processListing u rl execs).2).map ExecConfig.description
        = execs.map ExecConfig.description := by
  intro rl
  induction rl with
  | nil => intro execs; exact ⟨rfl, rfl⟩
  | cons r rest ih =>
    intro execs
    cases h1 : add_token execs r.description r.token with
    | some execs' =>
      have hmem : r.description ∈ execs.map ExecConfig.description := by
        by_contra hmem
        rw [(add_token_none_iff execs r.description r.token).mpr hmem] at h1
        cases h1
      have hdesc := add_token_some_desc execs r.description r.token execs' h1
      obtain ⟨ihc, ihd⟩ := ih execs'
      rw [hdesc] at ihc ihd
      simp only [processListing, h1]
      constructor
      · rw [ihc, List.filter_cons]
        simp [hmem]
      · exact ihd
    | none =>
      have hmem : r.description ∉ execs.map ExecConfig.description :=
        (add_token_none_iff execs r.description r.token).mp h1
      obtain ⟨ihc, ihd⟩ := ih execs
      rcases hp : processListing u rest execs with ⟨cs, e'⟩
      simp only [hp] at ihc ihd
      simp only [processListing, h1, hp]
      constructor
      · rw [List.filter_cons]
        rw [if_pos (by simp [hmem] :
            (!decide (r.description ∈ execs.map ExecConfig.description)) = true)]
        rw [List.map_cons, ihc]
      · exact ihd

theorem registerLoop_spec (u : String) (f : String → String) :
    ∀ (ms execs : List ExecConfig),
      (registerLoop u f ms execs).1
        = ms.map (fun m => SyncCall.register u m.description (commaJoin m.tags))
    ∧ ((registerLoop u f ms execs).2).map ExecConfig.description
        = execs.map ExecConfig.description := by
  intro ms
  induction ms with
  | nil => intro execs; exact ⟨rfl, rfl⟩
  | cons m rest ih =>
    intro execs
    obtain ⟨ihc, ihd⟩ :=
      ih ((add_token execs m.description (f m.description)).getD execs)
    rcases hr : registerLoop u f rest
        ((add_token execs m.description (f m.description)).getD execs) with ⟨cs, e'⟩
    simp only [hr] at ihc ihd
    simp only [registerLoop, hr]
    constructor
    · rw [List.map_cons, ihc]
    · rw [ihd, add_token_getD_desc]

theorem sync_register_mem (hostname inst : String) :
    ∀ (clients : List ClientState) (execs : List ExecConfig) (u d tl : String),
      SyncCall.register u d tl ∈ (sync_runner_state hostname inst clients execs).1 →
      d ∈ execs.map ExecConfig.description := by
  intro clients
  induction clients with
  | nil => intro execs u d tl h; cases h
  | cons cl rest ih =>
    intro execs u d tl h
    cases hid : identifying_tags hostname inst with
    | error e => simp only [sync_runner_state, hid] at h; cases h
    | ok tags =>
      obtain ⟨hpc, hpd⟩ := processListing_spec cl.url cl.listing execs
      rcases hp : processListing cl.url cl.listing execs with ⟨cs1, e1⟩
      simp only [hp] at hpc hpd
      obtain ⟨hrc, hrd⟩ := registerLoop_spec cl.url cl.newToken (missing_token e1 cl.url) e1
      rcases hrg : registerLoop cl.url cl.newToken (missing_token e1 cl.url) e1 with ⟨cs2, e2⟩
      simp only [hrg] at hrc hrd
      rcases hs : sync_runner_state hostname inst rest e2 with ⟨cs3, r3⟩
      simp only [sync_runner_state, hid, hp, hrg, hs] at h
      rcases List.mem_cons.mp h with hhead | htail
      · cases hhead
      · rcases List.mem_append.mp htail with h12 | h3
        · rcases List.mem_append.mp h12 with h1 | h2
          · rw [hpc] at h1
            obtain ⟨rr, _, heq⟩ := List.mem_map.mp h1
            cases heq
          · rw [hrc] at h2
            obtain ⟨m, hm, heq⟩ := List.mem_map.mp h2
            injection heq with _ heq2 _
            subst heq2
            have hm1 : m ∈ e1 := List.mem_of_mem_filter hm
            have hmem : m.description ∈ e1.map ExecConfig.description :=
              List.mem_map.mpr ⟨m, hm1, rfl⟩
            rw [hpd] at hmem
            exact hmem
        · have hres := ih e2 u d tl (by rw [hs]; exact h3)
          rw [hrd, hpd] at hres
          exact hres

/-! ## Length facts used for the non-empty tag filter -/

theorem commaJoin_two_ne_empty (a b : String) (t : List String) :
    commaJoin (a :: b :: t) ≠ "" := by
  intro h
  have heq : commaJoin (a :: b :: t) = a ++ "," ++ commaJoin (b :: t) := rfl
  rw [heq] at h
  have h2 := congrArg String.length h
  rw [String.length_append, String.length_append] at h2
  have hc : (",").length = 1 := rfl
  have h0 : ("" : String).length = 0 := rfl
  rw [hc, h0] at h2
  omega

theorem identifying_tags_shape (hostname inst : String) (l : List String)
    (h : identifying_tags hostname inst = .ok l) :
    ∃ a b t, l = a :: b :: t := by
  simp only [identifying_tags] at h
  split at h
  · cases h
  · injection h with h
    subst h
    have hm : "managed" ∈ pySet [hostname, stripDigits hostname, "managed"] := by
      rw [mem_pySet]; simp
    cases hq : pySet [hostname, stripDigits hostname, "managed"] with
    | nil => rw [hq] at hm; cases hm
    | cons a as =>
      cases as with
      | nil => exact ⟨a, inst, [], rfl⟩
      | cons b bs => exact ⟨a, b, bs ++ [inst], by simp⟩

/-! ## Claim theorems: `sync_runner_state` -/

/-- C9: every remote listing call issued during reconciliation carries
the tag filter built from the host identity tags — it contains the
hostname, the digit-stripped hostname, the `"managed"` marker and the
instance name — and that filter is never empty (neither as a tag list
nor as the joined `tag_list` string); delete and register calls are not
listings, so no unfiltered or empty-filtered listing is ever issued. -/
theorem sync_list_calls_tagged (hostname inst : String)
    (clients : List ClientState) (execs : List ExecConfig) (u tl : String)
    (h : SyncCall.list u tl ∈ (sync_runner_state hostname inst clients execs).1) :
    ∃ tags, identifying_tags hostname inst = .ok tags
      ∧ tl = commaJoin tags ∧ tags ≠ [] ∧ tl ≠ ""
      ∧ hostname ∈ tags ∧ stripDigits hostname ∈ tags
      ∧ "managed" ∈ tags ∧ inst ∈ tags := by
  induction clients generalizing execs with
  | nil => cases h
  | cons cl rest ih =>
    cases hid : identifying_tags hostname inst with
    | error e => simp only [sync_runner_state, hid] at h; cases h
    | ok tags =>
      obtain ⟨hpc, hpd⟩ := processListing_spec cl.url cl.listing execs
      rcases hp : processListing cl.url cl.listing execs with ⟨cs1, e1⟩
      simp only [hp] at hpc hpd
      obtain ⟨hrc, hrd⟩ := registerLoop_spec cl.url cl.newToken (missing_token e1 cl.url) e1
      rcases hrg : registerLoop cl.url cl.newToken (missing_token e1 cl.url) e1 with ⟨cs2, e2⟩
      simp only [hrg] at hrc hrd
      rcases hs : sync_runner_state hostname inst rest e2 with ⟨cs3, r3⟩
      simp only [sync_runner_state, hid, hp, hrg, hs] at h
      rcases List.mem_cons.mp h with hhead | htail
      · injection hhead with hu htl
        subst htl
        obtain ⟨hh, hstr, hmg, hin, hnd⟩ :=
          (identifying_tags_spec hostname inst).2 tags hid
        obtain ⟨a, b, t, hshape⟩ := identifying_tags_shape hostname inst tags hid
        refine ⟨tags, rfl, rfl, ?_, ?_, hh, hstr, hmg, hin⟩
        · rw [hshape]; simp
        · rw [hshape]; exact commaJoin_two_ne_empty a b t
      · rcases List.mem_append.mp htail with h12 | h3
        · rcases List.mem_append.mp h12 with h1 | h2
          · rw [hpc] at h1
            obtain ⟨rr, _, heq⟩ := List.mem_map.mp h1
            cases heq
          · rw [hrc] at h2
            obtain ⟨m, _, heq⟩ := List.mem_map.mp h2
            cases heq
        · have hres := ih e2 (by rw [hs]; exact h3)
          rwa [hid] at hres

theorem sync_list_calls_tagged_witness :
    ∃ tags, identifying_tags "host" "main" = .ok tags
      ∧ "host,managed,main" = commaJoin tags ∧ tags ≠ []
      ∧ ("host,managed,main" : String) ≠ ""
      ∧ "host" ∈ tags ∧ stripDigits "host" ∈ tags
      ∧ "managed" ∈ tags ∧ "main" ∈ tags :=
  sync_list_calls_tagged "host" "main" [⟨"u", "rt", [], fun _ => "x"⟩] [] "u"
    "host,managed,main" (List.mem_singleton.mpr rfl)

theorem sync_countP_deletes (hostname inst : String) (tags : List String)
    (hok : identifying_tags hostname inst = .ok tags) (rid : Nat) :
    ∀ (clients : List ClientState) (execs : List ExecConfig) (D : List String),
      execs.map ExecConfig.description = D →
      ((sync_runner_state hostname inst clients execs).1.countP (isDeleteId rid))
        = ((clients.flatMap (fun cl => cl.listing)).filter
            (fun rr => !decide (rr.description ∈ D))).countP
              (fun rr => rr.id == rid) := by
  intro clients
  induction clients with
  | nil => intro execs D hD; rfl
  | cons cl rest ih =>
    intro execs D hD
    obtain ⟨hpc, hpd⟩ := processListing_spec cl.url cl.listing execs
    rcases hp : processListing cl.url cl.listing execs with ⟨cs1, e1⟩
    simp only [hp] at hpc hpd
    obtain ⟨hrc, hrd⟩ := registerLoop_spec cl.url cl.newToken (missing_token e1 cl.url) e1
    rcases hrg : registerLoop cl.url cl.newToken (missing_token e1 cl.url) e1 with ⟨cs2, e2⟩
    simp only [hrg] at hrc hrd
    rcases hs : sync_runner_state hostname inst rest e2 with ⟨cs3, r3⟩
    have hcs3 : cs3.countP (isDeleteId rid)
        = ((rest.flatMap (fun c => c.listing)).filter
            (fun rr => !decide (rr.description ∈ D))).countP (fun rr => rr.id == rid) := by
      have hres := ih e2 D (by rw [hrd, hpd, hD])
      rw [hs] at hres
      exact hres
    have hcs1 : cs1.countP (isDeleteId rid)
        = (cl.listing.filter (fun rr => !decide (rr.description ∈ D))).countP
            (fun rr => rr.id == rid) := by
      rw [hpc, hD, List.countP_map]
      rfl
    have hcs2 : cs2.countP (isDeleteId rid) = 0 := by
      rw [hrc, List.countP_map]
      apply List.countP_eq_zero.mpr
      intro m _
      simp [Function.comp, isDeleteId]
    have hhead : isDeleteId rid (SyncCall.list cl.url (commaJoin tags)) = false := rfl
    simp only [sync_runner_state, hok, hp, hrg, hs]
    have hbind : ((cl :: rest).flatMap (fun c => c.listing))
        = cl.listing ++ rest.flatMap (fun c => c.listing) := rfl
    rw [hbind, List.filter_append, List.countP_append, List.countP_cons,
      List.countP_append, List.countP_append, hcs1, hcs2, hcs3, hhead]
    simp

/-- C1: a remote record returned by the tag-scoped listing whose
description matches no declared executor (looking it up in the
`by_description` index raises `KeyError`) receives exactly one delete
call for its id, and no register call is ever issued with that record's
description — register calls only carry descriptions of declared
executors. -/
theorem sync_orphan_deleted (hostname inst : String)
    (clients : List ClientState) (execs : List ExecConfig)
    (cl : ClientState) (r : RemoteRunner)
    (htags : ∃ tags, identifying_tags hostname inst = .ok tags)
    (hcl : cl ∈ clients) (hr : r ∈ cl.listing)
    (horph : r.description ∉ execs.map ExecConfig.description)
    (hids : ((clients.flatMap (fun c => c.listing)).map RemoteRunner.id).Nodup) :
    ((sync_runner_state hostname inst clients execs).1.countP (isDeleteId r.id)) = 1
  ∧ ∀ u d tl,
      SyncCall.register u d tl ∈ (sync_runner_state hostname inst clients execs).1 →
      d ≠ r.description := by
  obtain ⟨tags, hok⟩ := htags
  constructor
  · rw [sync_countP_deletes hostname inst tags hok r.id clients execs _ rfl]
    have hrL : r ∈ clients.flatMap (fun c => c.listing) :=
      List.mem_flatMap.mpr ⟨cl, hcl, hr⟩
    have hrF : r ∈ (clients.flatMap (fun c => c.listing)).filter
        (fun rr => !decide (rr.description ∈ execs.map ExecConfig.description)) :=
      List.mem_filter.mpr ⟨hrL, by simp [horph]⟩
    have hsub : List.Sublist
        (((clients.flatMap (fun c => c.listing)).filter
            (fun rr => !decide (rr.description ∈ execs.map ExecConfig.description))).map
              RemoteRunner.id)
        ((clients.flatMap (fun c => c.listing)).map RemoteRunner.id) :=
      List.Sublist.map RemoteRunner.id (List.filter_sublist _)
    have hle1 := List.Sublist.count_le hsub r.id
    have hle2 := List.nodup_iff_count_le_one.mp hids r.id
    have hpos : 0 < (((clients.flatMap (fun c => c.listing)).filter
        (fun rr => !decide (rr.description ∈ execs.map ExecConfig.description))).map
          RemoteRunner.id).count r.id :=
      List.count_pos_iff.mpr (List.mem_map.mpr ⟨r, hrF, rfl⟩)
    have hcnt : (((clients.flatMap (fun c => c.listing)).filter
        (fun rr => !decide (rr.description ∈ execs.map ExecConfig.description))).map
          RemoteRunner.id).count r.id = 1 := by omega
    rw [List.count_eq_countP, List.countP_map] at hcnt
    exact hcnt
  · intro u d tl hmem heq
    have hd := sync_register_mem hostname inst clients execs u d tl hmem
    rw [heq] at hd
    exact horph hd

theorem sync_orphan_deleted_witness :
    ((sync_runner_state "host" "main"
        [⟨"u", "rt", [⟨5, "tok", "gone"⟩], fun _ => "nt"⟩] []).1.countP (isDeleteId 5)) = 1
  ∧ ∀ u d tl, SyncCall.register u d tl
      ∈ (sync_runner_state "host" "main"
          [⟨"u", "rt", [⟨5, "tok", "gone"⟩], fun _ => "nt"⟩] []).1 →
      d ≠ "gone" :=
  sync_orphan_deleted "host" "main"
    [⟨"u", "rt", [⟨5, "tok", "gone"⟩], fun _ => "nt"⟩] []
    ⟨"u", "rt", [⟨5, "tok", "gone"⟩], fun _ => "nt"⟩ ⟨5, "tok", "gone"⟩
    ⟨["host", "managed", "main"], rfl⟩
    (List.mem_singleton.mpr rfl)
    (List.mem_singleton.mpr rfl)
    (by decide)
    (by decide)

end GitlabRunnerAuth
